import Mathlib

/-!
Shallow embedding of the `portfolio` Go package (nu11ptr/portfolio-swap-go,
file `portfolio.go`): a validated container for a brokerage account's
"actual" and "desired" position sets.

Modelling choices:
* `decimal.Decimal` values (exact arbitrary-precision decimals) are modelled
  as `ℚ`; the comparisons `LTE`/`LT`/`GT` and `Add` are exact, so they map to
  the rational order and addition.
* Go's `map[string]Position` is modelled as an association list
  `List (String × Position)`; the code only ever inserts a key after checking
  it is absent, so keys stay distinct, and insertion order is the processing
  order of the batch.
* The mutex is irrelevant to the sequential claims; each exported method is a
  pure state transformer `Account → (Option PErr × Account)`.
* Errors are an inductive type `PErr`, one constructor per `errors.New`
  variable of the source.
-/

namespace Portfolio

/-- SecType represents a security type (`Stock`, `Fund`, `Cash`). -/
inductive SecType where
  | Stock
  | Fund
  | Cash
deriving DecidableEq, Repr

/-- CashSym represents a cash position (the reserved sentinel symbol). -/
def CashSym : String := "*CASH*"

/-- PErr enumerates the error values declared in `portfolio.go`. -/
inductive PErr where
  | BadSym
  | DupSym
  | SymNotFound
  | BadPrice
  | BadSecType
  | BadNumShares
  | BadPct
  | PctOverflow
  | PctUnderflow
deriving DecidableEq, Repr

/-- Position represents an actual or desired position in an account
(fields `Sym`, `SecType`, `Shares`, `Price`, `Pct` of the Go struct). -/
structure Position where
  Sym : String
  SType : SecType
  Shares : ℚ
  Price : ℚ
  Pct : ℚ
deriving DecidableEq, Repr

/-- validate embeds `(p *Position).validate(actual bool) error`. -/
def Position.validate (p : Position) (actual : Bool) : Option PErr :=
  if p.Sym = "" ∨ (p.SType = SecType.Cash ∧ p.Sym ≠ CashSym) then
    some PErr.BadSym
  else if p.Sym = CashSym ∧ p.SType ≠ SecType.Cash then
    some PErr.BadSecType
  else if actual then
    if p.Shares ≤ 0 then some PErr.BadNumShares else none
  else
    if p.Pct ≤ 0 ∨ 100 < p.Pct then some PErr.BadPct else none

/-- PMap models Go's `map[string]Position` as an association list. -/
abbrev PMap := List (String × Position)

namespace PMap

/-- lookup models the indexing read `p, ok := m[sym]`. -/
def lookup (m : PMap) (s : String) : Option Position :=
  match m with
  | [] => none
  | kv :: rest => if kv.1 = s then some kv.2 else lookup rest s

/-- insert models the write `m[sym] = pos` for a key known to be absent:
the new binding is appended, so the list order is insertion order. -/
def insert (m : PMap) (s : String) (p : Position) : PMap :=
  m ++ [(s, p)]

/-- setKey models the write `m[sym] = pos` for a key already present:
every binding of that key is replaced in place. -/
def setKey (m : PMap) (s : String) (p : Position) : PMap :=
  m.map (fun kv => if kv.1 = s then (s, p) else kv)

/-- sumPct is the sum of the `Pct` fields of all stored positions. -/
def sumPct (m : PMap) : ℚ :=
  (m.map (fun kv => kv.2.Pct)).sum

end PMap

/-- pin models the two lines `if pos.Sym == CashSym { pos.Price = *one }`:
the cash sentinel's price is forced to 1 before insertion. -/
def pin (pos : Position) : Position :=
  if pos.Sym = CashSym then { pos with Price := 1 } else pos

/-- setPositions embeds the loop of
`func setPositions(m map[string]Position, p []Position, actual bool) error`;
the running total `totalPct` is threaded explicitly and the (possibly
partially) mutated map is returned next to the error. -/
def setPositions (m : PMap) (p : List Position) (actual : Bool) (totalPct : ℚ) :
    Option PErr × PMap :=
  match p with
  | [] =>
      if actual = false ∧ totalPct < 100 then (some PErr.PctUnderflow, m)
      else (none, m)
  | pos :: rest =>
      match pos.validate actual with
      | some e => (some e, m)
      | none =>
          if (m.lookup pos.Sym).isSome then (some PErr.DupSym, m)
          else
            let totalPct' := if actual then totalPct else totalPct + pos.Pct
            if actual = false ∧ 100 < totalPct' then (some PErr.PctOverflow, m)
            else
              setPositions (m.insert pos.Sym (pin pos)) rest actual totalPct'

/-- Account represents a brokerage account (the Go struct's numeric limit
fields are carried along but never touched by the embedded operations). -/
structure Account where
  actual : PMap
  desired : PMap
  balance : ℚ
  lmtPct : ℚ
  lmtOpenPct : ℚ
  lmtClosepct : ℚ
  rebalThresh : ℚ
  sellOnClose : Bool
  Margin : Bool
  NonTaxable : Bool
deriving DecidableEq, Repr

/-- NewAccount creates a new account with both sets empty. -/
def NewAccount (margin nonTaxable : Bool) : Account :=
  { actual := [], desired := [], balance := 0, lmtPct := 0, lmtOpenPct := 0,
    lmtClosepct := 0, rebalThresh := 0, sellOnClose := false,
    Margin := margin, NonTaxable := nonTaxable }

/-- SetActual embeds `(a *Account).SetActual`: the actual set is replaced by
a fresh empty map, which `setPositions` then populates. -/
def Account.SetActual (a : Account) (p : List Position) : Option PErr × Account :=
  let r := setPositions [] p true 0
  (r.1, { a with actual := r.2 })

/-- SetDesired embeds `(a *Account).SetDesired`: the desired set is replaced
by a fresh empty map, which `setPositions` then populates. -/
def Account.SetDesired (a : Account) (p : List Position) : Option PErr × Account :=
  let r := setPositions [] p false 0
  (r.1, { a with desired := r.2 })

/-- copyMap embeds `func copyMap(m map[string]Position)`: every entry is
copied into a freshly allocated map. -/
def copyMap (m : PMap) : PMap :=
  m.foldl (fun m2 kv => m2.insert kv.1 kv.2) []

/-- Actual returns a copy of the map storing actual positions. -/
def Account.Actual (a : Account) : PMap := copyMap a.actual

/-- Desired returns a copy of the map storing the desired positions. -/
def Account.Desired (a : Account) : PMap := copyMap a.desired

/-- setPrice embeds `func setPrice(m map[string]Position, sym string, price)`:
when the symbol is present its price field is overwritten in place. -/
def setPrice (m : PMap) (sym : String) (price : ℚ) : Bool × PMap :=
  match m.lookup sym with
  | some p => (true, m.setKey sym { p with Price := price })
  | none => (false, m)

/-- SetPrice embeds `(a *Account).SetPrice(sym string, price *decimal.Decimal)`. -/
def Account.SetPrice (a : Account) (sym : String) (price : ℚ) :
    Option PErr × Account :=
  if sym = "" ∨ sym = CashSym then (some PErr.BadSym, a)
  else if price ≤ 0 then (some PErr.BadPrice, a)
  else
    let r := setPrice a.actual sym price
    let r2 := setPrice a.desired sym price
    let a' := { a with actual := r.2, desired := r2.2 }
    if r.1 = false ∧ r2.1 = false then (some PErr.SymNotFound, a')
    else (none, a')

/-- SetPriceStr embeds `(a *Account).SetPriceStr(sym, price string)`. The
external parser `decimal.New` (a dependency, not part of this repository) is
abstracted by its result: `parsed = none` models a string that does not parse
as an exact numeric value, `parsed = some d` a successful parse to `d`. -/
def Account.SetPriceStr (a : Account) (sym : String) (parsed : Option ℚ) :
    Option PErr × Account :=
  match parsed with
  | none => (some PErr.BadPrice, a)
  | some d => a.SetPrice sym d

/-- listPct is the sum of the `Pct` fields of a batch, in input order. -/
def listPct (p : List Position) : ℚ :=
  (p.map Position.Pct).sum

@[simp]
theorem listPct_nil : listPct [] = 0 := rfl

@[simp]
theorem listPct_cons (pos : Position) (rest : List Position) :
    listPct (pos :: rest) = pos.Pct + listPct rest := by
  simp [listPct]

@[simp]
theorem pin_Pct (pos : Position) : (pin pos).Pct = pos.Pct := by
  unfold pin; split <;> rfl

@[simp]
theorem pin_Sym (pos : Position) : (pin pos).Sym = pos.Sym := by
  unfold pin; split <;> rfl

@[simp]
theorem PMap.sumPct_insert (m : PMap) (s : String) (p : Position) :
    (m.insert s p).sumPct = m.sumPct + p.Pct := by
  simp [PMap.insert, PMap.sumPct]

theorem PMap.lookup_insert_none (m : PMap) (k s : String) (v : Position)
    (h1 : m.lookup s = none) (h2 : k ≠ s) : (m.insert k v).lookup s = none := by
  induction m with
  | nil => simp [PMap.insert, PMap.lookup, h2]
  | cons kv rest ih =>
      simp only [PMap.lookup] at h1
      by_cases hk : kv.1 = s
      · simp [hk] at h1
      · simp only [PMap.insert, List.cons_append, PMap.lookup, hk, if_neg hk]
        exact ih (by simpa [PMap.lookup, hk] using h1)

theorem validate_desired_pct {pos : Position} (h : pos.validate false = none) :
    0 < pos.Pct ∧ pos.Pct ≤ 100 := by
  unfold Position.validate at h
  split_ifs at h with h1 h2 h3 <;> simp_all

theorem listPct_nonneg {p : List Position}
    (hv : ∀ pos ∈ p, pos.validate false = none) : 0 ≤ listPct p := by
  induction p with
  | nil => simp
  | cons pos rest ih =>
      have h1 := validate_desired_pct (hv pos (by simp))
      have h2 := ih (fun q hq => hv q (by simp [hq]))
      simp only [listPct_cons]
      linarith

theorem setPositions_desired_none_sum (p : List Position) :
    ∀ (m : PMap) (t : ℚ), t ≤ 100 → (setPositions m p false t).1 = none →
      (setPositions m p false t).2.sumPct = m.sumPct + listPct p ∧
        t + listPct p = 100 := by
  induction p with
  | nil =>
      intro m t ht h
      by_cases hc : t < 100
      · simp [setPositions, hc] at h
      · simp only [setPositions, hc]
        simp [setPositions, hc] at h ⊢
        linarith
  | cons pos rest ih =>
      intro m t ht h
      simp only [setPositions] at h ⊢
      cases hv : pos.validate false with
      | some e => simp [hv] at h
      | none =>
          simp only [hv] at h ⊢
          by_cases hd : (m.lookup pos.Sym).isSome
          · simp [hd] at h
          · by_cases ho : (100:ℚ) < t + pos.Pct
            · simp [hd, ho] at h
            · simp only [hd, ho] at h ⊢
              simp only [Bool.false_eq_true, if_false, and_false, false_and,
                ite_false, if_neg, not_false_iff] at h ⊢
              rw [if_neg (fun hc => ho hc.2)] at h ⊢
              have ht' : t + pos.Pct ≤ 100 := le_of_not_lt ho
              have := ih (m.insert pos.Sym (pin pos)) (t + pos.Pct) ht' h
              rcases this with ⟨hs, hsum⟩
              constructor
              · rw [hs]; simp [PMap.sumPct_insert]; ring
              · simp only [listPct_cons]; linarith

theorem setPositions_desired_step (m : PMap) (pos : Position) (rest : List Position)
    (t : ℚ) (hv0 : pos.validate false = none)
    (hd : (m.lookup pos.Sym).isSome = false) (ho : ¬(100:ℚ) < t + pos.Pct) :
    setPositions m (pos :: rest) false t
      = setPositions (m.insert pos.Sym (pin pos)) rest false (t + pos.Pct) := by
  simp [setPositions, hv0, hd, ho]

theorem fresh_after_insert {pos : Position} {rest : List Position} {m : PMap}
    (hn : ((pos :: rest).map Position.Sym).Nodup)
    (hf : ∀ q ∈ pos :: rest, m.lookup q.Sym = none) :
    ∀ q ∈ rest, (m.insert pos.Sym (pin pos)).lookup q.Sym = none := by
  intro q hq
  refine PMap.lookup_insert_none _ _ _ _ (hf q (by simp [hq])) ?_
  intro heq
  exact (List.nodup_cons.mp hn).1 (by rw [heq]; exact List.mem_map_of_mem Position.Sym hq)

theorem setPositions_desired_overflow (p : List Position) :
    ∀ (m : PMap) (t : ℚ),
      (∀ pos ∈ p, pos.validate false = none) →
      ((p.map Position.Sym).Nodup) →
      (∀ pos ∈ p, m.lookup pos.Sym = none) →
      t ≤ 100 → 100 < t + listPct p →
      (setPositions m p false t).1 = some PErr.PctOverflow := by
  induction p with
  | nil =>
      intro m t _ _ _ ht hlt
      simp only [listPct_nil, add_zero] at hlt
      linarith
  | cons pos rest ih =>
      intro m t hv hn hf ht hlt
      have hv0 : pos.validate false = none := hv pos (by simp)
      have hd : (m.lookup pos.Sym).isSome = false := by
        rw [hf pos (by simp)]; rfl
      by_cases ho : (100:ℚ) < t + pos.Pct
      · simp [setPositions, hv0, hd, ho]
      · rw [setPositions_desired_step m pos rest t hv0 hd ho]
        refine ih _ _ (fun q hq => hv q (by simp [hq]))
          ((List.nodup_cons.mp hn).2) (fresh_after_insert hn hf)
          (le_of_not_lt ho) ?_
        simp only [listPct_cons] at hlt
        linarith

theorem setPositions_desired_underflow (p : List Position) :
    ∀ (m : PMap) (t : ℚ),
      (∀ pos ∈ p, pos.validate false = none) →
      ((p.map Position.Sym).Nodup) →
      (∀ pos ∈ p, m.lookup pos.Sym = none) →
      t + listPct p < 100 →
      (setPositions m p false t).1 = some PErr.PctUnderflow := by
  induction p with
  | nil =>
      intro m t _ _ _ hlt
      simp only [listPct_nil, add_zero] at hlt
      simp [setPositions, hlt]
  | cons pos rest ih =>
      intro m t hv hn hf hlt
      have hv0 : pos.validate false = none := hv pos (by simp)
      have hd : (m.lookup pos.Sym).isSome = false := by
        rw [hf pos (by simp)]; rfl
      have hrest : 0 ≤ listPct rest :=
        listPct_nonneg (fun q hq => hv q (by simp [hq]))
      simp only [listPct_cons] at hlt
      have ho : ¬(100:ℚ) < t + pos.Pct := by linarith
      rw [setPositions_desired_step m pos rest t hv0 hd ho]
      exact ih _ _ (fun q hq => hv q (by simp [hq]))
        ((List.nodup_cons.mp hn).2) (fresh_after_insert hn hf) (by linarith)

theorem setPositions_desired_exact (p : List Position) :
    ∀ (m : PMap) (t : ℚ),
      (∀ pos ∈ p, pos.validate false = none) →
      ((p.map Position.Sym).Nodup) →
      (∀ pos ∈ p, m.lookup pos.Sym = none) →
      t + listPct p = 100 →
      (setPositions m p false t).1 = none := by
  induction p with
  | nil =>
      intro m t _ _ _ heq
      simp only [listPct_nil, add_zero] at heq
      simp [setPositions, heq]
  | cons pos rest ih =>
      intro m t hv hn hf heq
      have hv0 : pos.validate false = none := hv pos (by simp)
      have hd : (m.lookup pos.Sym).isSome = false := by
        rw [hf pos (by simp)]; rfl
      have hrest : 0 ≤ listPct rest :=
        listPct_nonneg (fun q hq => hv q (by simp [hq]))
      simp only [listPct_cons] at heq
      have ho : ¬(100:ℚ) < t + pos.Pct := by linarith
      rw [setPositions_desired_step m pos rest t hv0 hd ho]
      exact ih _ _ (fun q hq => hv q (by simp [hq]))
        ((List.nodup_cons.mp hn).2) (fresh_after_insert hn hf) (by linarith)

/-- acct0 is a concrete freshly created account, used by the witnesses. -/
def acct0 : Account := NewAccount false false

/-- posA is a concrete valid desired position (40%). -/
def posA : Position := ⟨"AAA", SecType.Stock, 0, 0, 40⟩

/-- posB is a concrete valid desired position (60%). -/
def posB : Position := ⟨"BBB", SecType.Stock, 0, 0, 60⟩

/-- posC is a concrete valid desired position (1%). -/
def posC : Position := ⟨"CCC", SecType.Stock, 0, 0, 1⟩

/-- posBadPct is a concrete position with an out-of-range percentage. -/
def posBadPct : Position := ⟨"DDD", SecType.Stock, 0, 0, 101⟩

/-- posAct1 is a concrete valid actual position (100 shares). -/
def posAct1 : Position := ⟨"AAA", SecType.Stock, 100, 0, 0⟩

/-- C1: every successful SetDesired call leaves a desired set whose
percentages sum to exactly 100; a batch of individually valid,
duplicate-free positions fails with PctOverflow when its total percentage
exceeds 100, fails with PctUnderflow when its total is below 100, and
succeeds when its total is exactly 100. -/
theorem setDesired_pct_sum_spec (a : Account) (p : List Position) :
    ((a.SetDesired p).1 = none → PMap.sumPct (a.SetDesired p).2.desired = 100) ∧
    ((∀ pos ∈ p, pos.validate false = none) → ((p.map Position.Sym).Nodup) →
      ((100 < listPct p → (a.SetDesired p).1 = some PErr.PctOverflow) ∧
        (listPct p < 100 → (a.SetDesired p).1 = some PErr.PctUnderflow) ∧
        (listPct p = 100 → (a.SetDesired p).1 = none))) := by
  constructor
  · intro h
    have h2 : (setPositions [] p false 0).1 = none := h
    have hs := setPositions_desired_none_sum p [] 0 (by norm_num) h2
    show PMap.sumPct (setPositions [] p false 0).2 = 100
    rw [hs.1]
    have := hs.2
    simp only [PMap.sumPct, List.map_nil, List.sum_nil]
    linarith
  · intro hv hn
    refine ⟨?_, ?_, ?_⟩
    · intro hgt
      exact setPositions_desired_overflow p [] 0 hv hn (fun q _ => rfl)
        (by norm_num) (by linarith)
    · intro hlt
      exact setPositions_desired_underflow p [] 0 hv hn (fun q _ => rfl) (by linarith)
    · intro heq
      exact setPositions_desired_exact p [] 0 hv hn (fun q _ => rfl) (by linarith)

/-- Witness for C1 at concrete batches: [40%, 60%] succeeds with sum 100,
[40%, 60%, 1%] overflows, [40%] underflows. -/
theorem setDesired_pct_sum_spec_witness :
    (acct0.SetDesired [posA, posB]).1 = none ∧
    PMap.sumPct (acct0.SetDesired [posA, posB]).2.desired = 100 ∧
    (acct0.SetDesired [posA, posB, posC]).1 = some PErr.PctOverflow ∧
    (acct0.SetDesired [posA]).1 = some PErr.PctUnderflow := by
  have t1 := (setDesired_pct_sum_spec acct0 [posA, posB]).2 (by decide) (by decide)
  have t2 := (setDesired_pct_sum_spec acct0 [posA, posB, posC]).2 (by decide) (by decide)
  have t3 := (setDesired_pct_sum_spec acct0 [posA]).2 (by decide) (by decide)
  have h1 : (acct0.SetDesired [posA, posB]).1 = none :=
    t1.2.2 (by norm_num [listPct, posA, posB])
  exact ⟨h1, (setDesired_pct_sum_spec acct0 [posA, posB]).1 h1,
    t2.1 (by norm_num [listPct, posA, posB, posC]),
    t3.2.1 (by norm_num [listPct, posA])⟩

/-- insertAll inserts a batch of (pinned) positions in order, with no checks:
it describes the contents of the target map after processing a prefix. -/
def insertAll (m : PMap) (p : List Position) : PMap :=
  p.foldl (fun acc pos => acc.insert pos.Sym (pin pos)) m

@[simp]
theorem insertAll_nil (m : PMap) : insertAll m [] = m := rfl

@[simp]
theorem insertAll_cons (m : PMap) (pos : Position) (rest : List Position) :
    insertAll m (pos :: rest) = insertAll (m.insert pos.Sym (pin pos)) rest := rfl

/-- stepCheck is the error produced by one loop iteration of `setPositions`
against the map `m` built so far and running total `t`, for position `pos`. -/
def stepCheck (m : PMap) (t : ℚ) (pos : Position) (actual : Bool) : Option PErr :=
  match pos.validate actual with
  | some e => some e
  | none =>
      if (m.lookup pos.Sym).isSome then some PErr.DupSym
      else if actual = false ∧ 100 < t + pos.Pct then some PErr.PctOverflow
      else none

theorem stepCheck_actual_t (m : PMap) (t1 t2 : ℚ) (pos : Position) :
    stepCheck m t1 pos true = stepCheck m t2 pos true := by
  unfold stepCheck
  cases pos.validate true <;> simp

theorem setPositions_cons_val_some {pos : Position} {actual : Bool} {e0 : PErr}
    (m : PMap) (rest : List Position) (t : ℚ) (h : pos.validate actual = some e0) :
    setPositions m (pos :: rest) actual t = (some e0, m) := by
  simp [setPositions, h]

theorem setPositions_cons_dup {pos : Position} {actual : Bool} {m : PMap}
    (rest : List Position) (t : ℚ) (hv : pos.validate actual = none)
    (hd : (m.lookup pos.Sym).isSome = true) :
    setPositions m (pos :: rest) actual t = (some PErr.DupSym, m) := by
  simp [setPositions, hv, hd]

theorem setPositions_cons_over {pos : Position} {m : PMap} {t : ℚ}
    (rest : List Position) (hv : pos.validate false = none)
    (hd : (m.lookup pos.Sym).isSome = false) (ho : (100:ℚ) < t + pos.Pct) :
    setPositions m (pos :: rest) false t = (some PErr.PctOverflow, m) := by
  simp [setPositions, hv, hd, ho]

theorem setPositions_actual_step (m : PMap) (pos : Position)
    (rest : List Position) (t : ℚ) (hv : pos.validate true = none)
    (hd : (m.lookup pos.Sym).isSome = false) :
    setPositions m (pos :: rest) true t
      = setPositions (m.insert pos.Sym (pin pos)) rest true t := by
  simp [setPositions, hv, hd]

theorem setPositions_fail_at (p : List Position) :
    ∀ (m : PMap) (t : ℚ) (actual : Bool) (e : PErr) (m' : PMap),
      setPositions m p actual t = (some e, m') → e ≠ PErr.PctUnderflow →
      ∃ i, ∃ hi : i < p.length,
        m' = insertAll m (p.take i) ∧
        stepCheck (insertAll m (p.take i)) (t + listPct (p.take i))
          (p.get ⟨i, hi⟩) actual = some e := by
  induction p with
  | nil =>
      intro m t actual e m' h hne
      by_cases hc : actual = false ∧ t < 100
      · simp only [setPositions, if_pos hc] at h
        have hx : PErr.PctUnderflow = e := by simpa using congrArg Prod.fst h
        exact absurd hx.symm hne
      · simp only [setPositions, if_neg hc] at h
        simpa using congrArg Prod.fst h
  | cons pos rest ih =>
      intro m t actual e m' h hne
      cases hv : pos.validate actual with
      | some e0 =>
          rw [setPositions_cons_val_some m rest t hv] at h
          obtain ⟨he, hm⟩ := Prod.mk.injEq _ _ _ _ ▸ h
          refine ⟨0, by simp, by simp [hm.symm], ?_⟩
          simp [stepCheck, hv, he]
      | none =>
          by_cases hd : (m.lookup pos.Sym).isSome
          · rw [setPositions_cons_dup rest t hv hd] at h
            obtain ⟨he, hm⟩ := Prod.mk.injEq _ _ _ _ ▸ h
            refine ⟨0, by simp, by simp [hm.symm], ?_⟩
            simp [stepCheck, hv, hd, he]
          · have hd' : (m.lookup pos.Sym).isSome = false := by
              simpa using hd
            cases actual with
            | true =>
                rw [setPositions_actual_step m pos rest t hv hd'] at h
                obtain ⟨i, hi, hm, hs⟩ := ih _ _ _ _ _ h hne
                refine ⟨i + 1, by simpa using Nat.succ_lt_succ hi, ?_, ?_⟩
                · simpa using hm
                · rw [show (pos :: rest).get ⟨i + 1, _⟩ = rest.get ⟨i, hi⟩ from rfl]
                  simp only [List.take_succ_cons, insertAll_cons]
                  rw [stepCheck_actual_t _ _ (t + listPct (rest.take i))]
                  exact hs
            | false =>
                by_cases ho : (100:ℚ) < t + pos.Pct
                · rw [setPositions_cons_over rest hv hd' ho] at h
                  obtain ⟨he, hm⟩ := Prod.mk.injEq _ _ _ _ ▸ h
                  refine ⟨0, by simp, by simp [hm.symm], ?_⟩
                  simp [stepCheck, hv, hd', ho, he]
                · rw [setPositions_desired_step m pos rest t hv hd' ho] at h
                  obtain ⟨i, hi, hm, hs⟩ := ih _ _ _ _ _ h hne
                  refine ⟨i + 1, by simpa using Nat.succ_lt_succ hi, ?_, ?_⟩
                  · simpa using hm
                  · rw [show (pos :: rest).get ⟨i + 1, _⟩ = rest.get ⟨i, hi⟩ from rfl]
                    simp only [List.take_succ_cons, insertAll_cons, listPct_cons]
                    rw [show t + (pos.Pct + listPct (rest.take i))
                        = t + pos.Pct + listPct (rest.take i) by ring]
                    exact hs

/-- C2: when SetActual or SetDesired fails with a validation error, DupSym
or PctOverflow at the i-th input position, the target set afterwards holds
exactly the (pinned) positions of the input prefix before index i — the old
contents were discarded at the start of the call and no rollback occurs;
`stepCheck` certifies that the error arose at position i. -/
theorem setBatch_no_rollback (a : Account) (p : List Position) (e : PErr)
    (hne : e ≠ PErr.PctUnderflow) :
    ((a.SetActual p).1 = some e →
      ∃ i, ∃ hi : i < p.length,
        (a.SetActual p).2.actual = insertAll [] (p.take i) ∧
        stepCheck (insertAll [] (p.take i)) (listPct (p.take i))
          (p.get ⟨i, hi⟩) true = some e) ∧
    ((a.SetDesired p).1 = some e →
      ∃ i, ∃ hi : i < p.length,
        (a.SetDesired p).2.desired = insertAll [] (p.take i) ∧
        stepCheck (insertAll [] (p.take i)) (listPct (p.take i))
          (p.get ⟨i, hi⟩) false = some e) := by
  constructor
  · intro h
    have h' : setPositions [] p true 0
        = (some e, (setPositions [] p true 0).2) := by
      rw [← h]; rfl
    obtain ⟨i, hi, hm, hs⟩ := setPositions_fail_at p [] 0 true e _ h' hne
    exact ⟨i, hi, hm, by rw [← zero_add (listPct (p.take i))]; exact hs⟩
  · intro h
    have h' : setPositions [] p false 0
        = (some e, (setPositions [] p false 0).2) := by
      rw [← h]; rfl
    obtain ⟨i, hi, hm, hs⟩ := setPositions_fail_at p [] 0 false e _ h' hne
    exact ⟨i, hi, hm, by rw [← zero_add (listPct (p.take i))]; exact hs⟩

/-- Witness for C2: the batch [40%, 60%, 1%] overflows at index 2 and the
desired set afterwards holds exactly the first two positions. -/
theorem setBatch_no_rollback_witness :
    ∃ i, ∃ hi : i < ([posA, posB, posC]).length,
      (acct0.SetDesired [posA, posB, posC]).2.desired
          = insertAll [] (([posA, posB, posC]).take i) ∧
      stepCheck (insertAll [] (([posA, posB, posC]).take i))
          (listPct (([posA, posB, posC]).take i))
          (([posA, posB, posC]).get ⟨i, hi⟩) false = some PErr.PctOverflow := by
  refine (setBatch_no_rollback acct0 [posA, posB, posC] PErr.PctOverflow
    (by decide)).2 ?_
  simp +decide [Account.SetDesired, setPositions, Position.validate, posA, posB,
    posC, acct0, NewAccount, PMap.lookup, PMap.insert, pin, CashSym]
  norm_num

/-- Counterexample to C3 as stated: SetDesired on the empty batch does not
succeed — the zero running total is strictly below 100, so the call returns
PctUnderflow. -/
theorem setDesired_empty_counterexample :
    (acct0.SetDesired []).1 = some PErr.PctUnderflow ∧
      (acct0.SetDesired []).1 ≠ none := by
  exact ⟨rfl, by simp +decide [Account.SetDesired, setPositions, acct0, NewAccount]⟩

/-- C3 amended: SetDesired with an empty input fails with PctUnderflow (the
loop adds nothing, the final total 0 is < 100) and leaves the desired set
empty. -/
theorem setDesired_empty_underflow (a : Account) :
    (a.SetDesired []).1 = some PErr.PctUnderflow ∧
      (a.SetDesired []).2.desired = [] :=
  ⟨rfl, rfl⟩

/-- Counterexample to C4 as stated: in the batch [40%, 60%, 101%] the running
total through the third position is 201 > 100, yet the call reports the
third position's own validation error BadPct, not PctOverflow — per-position
validation runs before the overflow check. -/
theorem overflow_precedence_counterexample :
    (100:ℚ) < listPct [posA, posB, posBadPct] ∧
    (acct0.SetDesired [posA, posB, posBadPct]).1 = some PErr.BadPct ∧
    some PErr.BadPct ≠ some PErr.PctOverflow := by
  refine ⟨by norm_num [listPct, posA, posB, posBadPct], ?_, by decide⟩
  simp +decide [Account.SetDesired, setPositions, Position.validate, posA, posB,
    posBadPct, acct0, NewAccount, PMap.lookup, PMap.insert, pin, CashSym]
  norm_num

/-- C4 amended: in Desired mode the loop fails immediately with PctOverflow
as soon as the running total including the current position exceeds 100,
without touching the rest of the input — provided the current position
itself passes per-position validation and the duplicate check; a validation
error of the overflowing position takes precedence over PctOverflow. -/
theorem overflow_fail_fast (m : PMap) (t : ℚ) (pos : Position)
    (rest : List Position) :
    (pos.validate false = none → (m.lookup pos.Sym).isSome = false →
      100 < t + pos.Pct →
      setPositions m (pos :: rest) false t = (some PErr.PctOverflow, m)) ∧
    (∀ e0, pos.validate false = some e0 →
      setPositions m (pos :: rest) false t = (some e0, m)) := by
  constructor
  · intro hv hd ho
    exact setPositions_cons_over rest hv hd ho
  · intro e0 hv
    exact setPositions_cons_val_some m rest t hv

/-- Witness for the amended C4: with the running total already at 100, a
valid 1% position triggers PctOverflow at once, while a 101% position is
reported as BadPct. -/
theorem overflow_fail_fast_witness :
    setPositions [] [posC] false 100 = (some PErr.PctOverflow, []) ∧
    setPositions [] [posBadPct] false 100 = (some PErr.BadPct, []) :=
  ⟨(overflow_fail_fast [] 100 posC []).1 (by decide) rfl (by norm_num [posC]),
    (overflow_fail_fast [] 100 posBadPct []).2 PErr.BadPct (by decide)⟩

/-- C7: validate returns BadSym exactly when the symbol is empty or the
security type is Cash with a non-sentinel symbol; BadSecType exactly when
the symbol is the cash sentinel with a non-Cash type; BadNumShares exactly
when, in Actual mode, the symbol checks pass and shares ≤ 0; BadPct exactly
when, in Desired mode, the symbol checks pass and the percentage is ≤ 0 or
> 100; and succeeds in every remaining case. -/
theorem validate_spec (p : Position) (actual : Bool) :
    (p.validate actual = some PErr.BadSym ↔
      (p.Sym = "" ∨ (p.SType = SecType.Cash ∧ p.Sym ≠ CashSym))) ∧
    (p.validate actual = some PErr.BadSecType ↔
      (p.Sym = CashSym ∧ p.SType ≠ SecType.Cash)) ∧
    (p.validate actual = some PErr.BadNumShares ↔
      (actual = true ∧
        ¬(p.Sym = "" ∨ (p.SType = SecType.Cash ∧ p.Sym ≠ CashSym)) ∧
        ¬(p.Sym = CashSym ∧ p.SType ≠ SecType.Cash) ∧ p.Shares ≤ 0)) ∧
    (p.validate actual = some PErr.BadPct ↔
      (actual = false ∧
        ¬(p.Sym = "" ∨ (p.SType = SecType.Cash ∧ p.Sym ≠ CashSym)) ∧
        ¬(p.Sym = CashSym ∧ p.SType ≠ SecType.Cash) ∧
        (p.Pct ≤ 0 ∨ 100 < p.Pct))) ∧
    (p.validate actual = none ↔
      (¬(p.Sym = "" ∨ (p.SType = SecType.Cash ∧ p.Sym ≠ CashSym)) ∧
        ¬(p.Sym = CashSym ∧ p.SType ≠ SecType.Cash) ∧
        ((actual = true ∧ 0 < p.Shares) ∨
          (actual = false ∧ 0 < p.Pct ∧ p.Pct ≤ 100)))) := by
  unfold Position.validate
  cases actual <;> split_ifs with h1 h2 <;> simp_all [CashSym] <;>
    first
      | linarith
      | tauto
      | (aesop <;> linarith)

theorem PMap.lookup_setKey_self (m : PMap) (s : String) (q : Position)
    {p : Position} (h : m.lookup s = some p) :
    (m.setKey s q).lookup s = some q := by
  induction m with
  | nil => simp [PMap.lookup] at h
  | cons kv rest ih =>
      by_cases hk : kv.1 = s
      · simp [PMap.setKey, PMap.lookup, hk]
      · simp only [PMap.lookup, if_neg hk] at h
        simp only [PMap.setKey, List.map_cons, if_neg hk, PMap.lookup,
          if_neg hk]
        exact ih h

theorem PMap.lookup_setKey_ne (m : PMap) (s : String) (q : Position)
    (s' : String) (h : s' ≠ s) :
    (m.setKey s q).lookup s' = m.lookup s' := by
  induction m with
  | nil => rfl
  | cons kv rest ih =>
      simp only [PMap.setKey, List.map_cons] at ih ⊢
      by_cases hk : kv.1 = s
      · rw [if_pos hk]
        simp only [PMap.lookup]
        rw [if_neg (fun hc => h hc.symm),
          if_neg (fun hc => h (hk ▸ hc).symm)]
        exact ih
      · rw [if_neg hk]
        simp only [PMap.lookup]
        by_cases hk' : kv.1 = s'
        · rw [if_pos hk', if_pos hk']
        · rw [if_neg hk', if_neg hk']
          exact ih

theorem setPrice_not_found (m : PMap) (sym : String) (price : ℚ)
    (h : m.lookup sym = none) : setPrice m sym price = (false, m) := by
  simp [setPrice, h]

theorem setPrice_found {m : PMap} {sym : String} {p : Position} (price : ℚ)
    (h : m.lookup sym = some p) :
    setPrice m sym price = (true, m.setKey sym { p with Price := price }) := by
  simp [setPrice, h]

theorem SetPrice_reduce (a : Account) (sym : String) (price : ℚ)
    (h1 : ¬(sym = "" ∨ sym = CashSym)) (h2 : ¬price ≤ 0) :
    a.SetPrice sym price =
      (if (setPrice a.actual sym price).1 = false ∧
            (setPrice a.desired sym price).1 = false
        then (some PErr.SymNotFound,
          { a with actual := (setPrice a.actual sym price).2,
                   desired := (setPrice a.desired sym price).2 })
        else (none,
          { a with actual := (setPrice a.actual sym price).2,
                   desired := (setPrice a.desired sym price).2 })) := by
  simp only [Account.SetPrice, if_neg h1, if_neg h2]

/-- C5: for a valid non-cash symbol and positive price, SetPrice updates the
price of the entry in each set that contains the symbol (leaving its other
fields intact) and succeeds; when the symbol is in neither set it fails with
SymNotFound and the account is unchanged; a set not containing the symbol is
untouched, and entries under every other symbol are untouched. -/
theorem SetPrice_spec (a : Account) (sym : String) (price : ℚ)
    (h1 : sym ≠ "") (h2 : sym ≠ CashSym) (h3 : 0 < price) :
    ((a.actual.lookup sym = none ∧ a.desired.lookup sym = none) →
      a.SetPrice sym price = (some PErr.SymNotFound, a)) ∧
    (∀ p, a.actual.lookup sym = some p →
      (a.SetPrice sym price).1 = none ∧
      ((a.SetPrice sym price).2).actual.lookup sym
          = some { p with Price := price }) ∧
    (∀ p, a.desired.lookup sym = some p →
      (a.SetPrice sym price).1 = none ∧
      ((a.SetPrice sym price).2).desired.lookup sym
          = some { p with Price := price }) ∧
    (a.actual.lookup sym = none →
      ((a.SetPrice sym price).2).actual = a.actual) ∧
    (a.desired.lookup sym = none →
      ((a.SetPrice sym price).2).desired = a.desired) ∧
    (∀ s, s ≠ sym →
      ((a.SetPrice sym price).2).actual.lookup s = a.actual.lookup s ∧
      ((a.SetPrice sym price).2).desired.lookup s = a.desired.lookup s) := by
  have hg : ¬(sym = "" ∨ sym = CashSym) := by
    intro hc
    rcases hc with hc | hc
    · exact h1 hc
    · exact h2 hc
  have hp : ¬price ≤ 0 := not_le.mpr h3
  rw [SetPrice_reduce a sym price hg hp]
  cases haa : a.actual.lookup sym with
  | some p =>
      cases hdd : a.desired.lookup sym with
      | some q =>
          rw [setPrice_found price haa, setPrice_found price hdd]
          refine ⟨fun hc => Option.noConfusion hc.1, ?_, ?_, ?_, ?_, ?_⟩
          · intro p0 hp0
            obtain rfl : p = p0 := by injection hp0
            simp [PMap.lookup_setKey_self _ _ _ haa]
          · intro q0 hq0
            obtain rfl : q = q0 := by injection hq0
            simp [PMap.lookup_setKey_self _ _ _ hdd]
          · intro hc; exact Option.noConfusion hc
          · intro hc; exact Option.noConfusion hc
          · intro s hs
            simp [PMap.lookup_setKey_ne _ _ _ _ hs]
      | none =>
          rw [setPrice_found price haa, setPrice_not_found _ _ _ hdd]
          refine ⟨fun hc => Option.noConfusion hc.1, ?_, ?_, ?_, ?_, ?_⟩
          · intro p0 hp0
            obtain rfl : p = p0 := by injection hp0
            simp [PMap.lookup_setKey_self _ _ _ haa]
          · intro q0 hq0; exact Option.noConfusion hq0
          · intro hc; exact Option.noConfusion hc
          · intro _; simp
          · intro s hs
            simp [PMap.lookup_setKey_ne _ _ _ _ hs]
  | none =>
      cases hdd : a.desired.lookup sym with
      | some q =>
          rw [setPrice_not_found _ _ _ haa, setPrice_found price hdd]
          refine ⟨fun hc => Option.noConfusion hc.2, ?_, ?_, ?_, ?_, ?_⟩
          · intro p0 hp0; exact Option.noConfusion hp0
          · intro q0 hq0
            obtain rfl : q = q0 := by injection hq0
            simp [PMap.lookup_setKey_self _ _ _ hdd]
          · intro _; simp
          · intro hc; exact Option.noConfusion hc
          · intro s hs
            simp [PMap.lookup_setKey_ne _ _ _ _ hs]
      | none =>
          rw [setPrice_not_found _ _ _ haa, setPrice_not_found _ _ _ hdd]
          refine ⟨fun _ => by simp, ?_, ?_, fun _ => by simp, fun _ => by simp,
            fun s _ => by simp⟩
          · intro p0 hp0; exact Option.noConfusion hp0
          · intro q0 hq0; exact Option.noConfusion hq0

/-- Witness for C5 on a concrete account holding AAA in the desired set only:
the desired entry's price is updated, the actual set stays empty, and an
absent symbol yields SymNotFound. -/
theorem SetPrice_spec_witness :
    ((((acct0.SetDesired [posA, posB]).2).SetPrice "AAA" 5).1 = none ∧
      ((((acct0.SetDesired [posA, posB]).2).SetPrice "AAA" 5).2).desired.lookup
          "AAA" = some { posA with Price := 5 }) ∧
    (((acct0.SetDesired [posA, posB]).2).SetPrice "ZZZ" 1
        = (some PErr.SymNotFound, (acct0.SetDesired [posA, posB]).2)) := by
  have hdd : ((acct0.SetDesired [posA, posB]).2).desired.lookup "AAA"
      = some posA := by
    simp +decide [Account.SetDesired, setPositions, Position.validate, posA,
      posB, acct0, NewAccount, PMap.lookup, PMap.insert, pin, CashSym]
    norm_num [PMap.lookup, posA]
  have hzza : ((acct0.SetDesired [posA, posB]).2).actual.lookup "ZZZ"
      = none := by
    simp +decide [Account.SetDesired, acct0, NewAccount, PMap.lookup]
  have hzzd : ((acct0.SetDesired [posA, posB]).2).desired.lookup "ZZZ"
      = none := by
    simp +decide [Account.SetDesired, setPositions, Position.validate, posA,
      posB, acct0, NewAccount, PMap.lookup, PMap.insert, pin, CashSym]
    norm_num [PMap.lookup, posA, posB]
    all_goals decide
  refine ⟨?_, ?_⟩
  · have h := (SetPrice_spec ((acct0.SetDesired [posA, posB]).2) "AAA" 5
      (by decide) (by decide) (by norm_num)).2.2.1 posA hdd
    exact h
  · exact (SetPrice_spec ((acct0.SetDesired [posA, posB]).2) "ZZZ" 1
      (by decide) (by decide) (by norm_num)).1 ⟨hzza, hzzd⟩

/-- Counterexample to C8 as stated: at symbol "" and price 0 the price is
≤ 0, yet SetPrice reports BadSym, not BadPrice — the symbol check runs
first, so "fails with BadPrice whenever price ≤ 0" is false as stated. -/
theorem setPrice_bad_precedence_counterexample :
    ((0:ℚ) ≤ 0) ∧
    (acct0.SetPrice "" 0).1 = some PErr.BadSym ∧
    some PErr.BadSym ≠ some PErr.BadPrice :=
  ⟨le_refl 0, rfl, by decide⟩

/-- C8 amended: SetPrice fails with BadSym whenever the symbol is empty or
the cash sentinel; it fails with BadPrice whenever the price is ≤ 0 and the
symbol is neither empty nor the sentinel; and SetPriceStr fails with
BadPrice whenever the price text does not parse as an exact numeric value,
regardless of the symbol. -/
theorem setPrice_guard_spec (a : Account) (sym : String) (price : ℚ) :
    ((sym = "" ∨ sym = CashSym) →
      a.SetPrice sym price = (some PErr.BadSym, a)) ∧
    (sym ≠ "" → sym ≠ CashSym → price ≤ 0 →
      a.SetPrice sym price = (some PErr.BadPrice, a)) ∧
    (a.SetPriceStr sym none = (some PErr.BadPrice, a)) := by
  refine ⟨?_, ?_, rfl⟩
  · intro hs
    simp [Account.SetPrice, hs]
  · intro h1 h2 hp
    have hg : ¬(sym = "" ∨ sym = CashSym) := by
      intro hc
      rcases hc with hc | hc
      · exact h1 hc
      · exact h2 hc
    simp [Account.SetPrice, hg, hp]

/-- Witness for the amended C8 at concrete arguments. -/
theorem setPrice_guard_spec_witness :
    acct0.SetPrice "" 5 = (some PErr.BadSym, acct0) ∧
    acct0.SetPrice CashSym 5 = (some PErr.BadSym, acct0) ∧
    acct0.SetPrice "AAA" 0 = (some PErr.BadPrice, acct0) ∧
    acct0.SetPriceStr "AAA" none = (some PErr.BadPrice, acct0) :=
  ⟨(setPrice_guard_spec acct0 "" 5).1 (Or.inl rfl),
    (setPrice_guard_spec acct0 CashSym 5).1 (Or.inr rfl),
    (setPrice_guard_spec acct0 "AAA" 0).2.1 (by decide) (by decide)
      (by norm_num),
    (setPrice_guard_spec acct0 "AAA" 0).2.2⟩

/-- C10: whenever SetPrice or SetPriceStr returns an error, the account —
in particular both position sets — is left exactly as it was. -/
theorem setPrice_error_atomic (a : Account) (sym : String) (price : ℚ)
    (parsed : Option ℚ) (e : PErr) :
    (∀ a', a.SetPrice sym price = (some e, a') → a' = a) ∧
    (∀ a', a.SetPriceStr sym parsed = (some e, a') → a' = a) := by
  have hsp : ∀ (pr : ℚ) (a' : Account), a.SetPrice sym pr = (some e, a') →
      a' = a := by
    intro pr a' h
    by_cases hs : sym = "" ∨ sym = CashSym
    · simp only [Account.SetPrice, if_pos hs] at h
      exact (congrArg Prod.snd h).symm
    · by_cases hp : pr ≤ 0
      · simp only [Account.SetPrice, if_neg hs, if_pos hp] at h
        exact (congrArg Prod.snd h).symm
      · simp only [Account.SetPrice, if_neg hs, if_neg hp] at h
        by_cases hf : (setPrice a.actual sym pr).1 = false ∧
            (setPrice a.desired sym pr).1 = false
        · rw [if_pos hf] at h
          have h2 := (congrArg Prod.snd h).symm
          cases haa : a.actual.lookup sym with
          | some p =>
              rw [setPrice_found pr haa] at hf
              simp at hf
          | none =>
              cases hdd : a.desired.lookup sym with
              | some q =>
                  rw [setPrice_found pr hdd] at hf
                  simp at hf
              | none =>
                  rw [setPrice_not_found _ _ _ haa,
                    setPrice_not_found _ _ _ hdd] at h2
                  simpa using h2
        · rw [if_neg hf] at h
          exact absurd (congrArg Prod.fst h) (by simp)
  refine ⟨fun a' h => hsp price a' h, ?_⟩
  intro a' h
  cases parsed with
  | none =>
      simp only [Account.SetPriceStr] at h
      exact (congrArg Prod.snd h).symm
  | some d =>
      exact hsp d a' h

/-- Witness for C10: a failing SetPrice and a failing SetPriceStr on a
concrete account leave it unchanged. -/
theorem setPrice_error_atomic_witness :
    (acct0.SetPrice "" 5).2 = acct0 ∧
    (acct0.SetPriceStr "AAA" (some 0)).2 = acct0 :=
  ⟨(setPrice_error_atomic acct0 "" 5 none PErr.BadSym).1 _ rfl,
    (setPrice_error_atomic acct0 "AAA" 5 (some 0) PErr.BadPrice).2 _ rfl⟩

/-- CashPinned states that every position stored under the cash-sentinel
key of a map has price exactly 1. -/
def CashPinned (m : PMap) : Prop :=
  ∀ kv ∈ m, kv.1 = CashSym → kv.2.Price = 1

theorem CashPinned_nil : CashPinned [] := by
  intro kv hkv
  cases hkv

theorem CashPinned_insert {m : PMap} (h : CashPinned m) (pos : Position) :
    CashPinned (m.insert pos.Sym (pin pos)) := by
  intro kv hkv hk
  rcases List.mem_append.mp hkv with hm | hm
  · exact h kv hm hk
  · have hkv2 : kv = (pos.Sym, pin pos) := by simpa using hm
    subst hkv2
    simp only at hk
    simp [pin, hk]

theorem CashPinned_setPositions (p : List Position) :
    ∀ (m : PMap) (t : ℚ) (actual : Bool), CashPinned m →
      CashPinned (setPositions m p actual t).2 := by
  induction p with
  | nil =>
      intro m t actual h
      simp only [setPositions]
      split_ifs <;> exact h
  | cons pos rest ih =>
      intro m t actual h
      simp only [setPositions]
      cases hv : pos.validate actual with
      | some e => exact h
      | none =>
          by_cases hd : (m.lookup pos.Sym).isSome = true
          · simp only [hd, if_true]
            exact h
          · simp only [hd, if_false]
            split_ifs <;>
              first
                | exact h
                | exact ih _ _ _ (CashPinned_insert h pos)

theorem CashPinned_setKey {m : PMap} (h : CashPinned m) {sym : String}
    (hns : sym ≠ CashSym) (q : Position) : CashPinned (m.setKey sym q) := by
  intro kv hkv hk
  rcases List.mem_map.mp hkv with ⟨kv0, hm0, heq⟩
  by_cases hc : kv0.1 = sym
  · rw [if_pos hc] at heq
    subst heq
    exact absurd hk hns
  · rw [if_neg hc] at heq
    subst heq
    exact h kv0 hm0 hk

theorem CashPinned_setPrice {m : PMap} {sym : String} {price : ℚ}
    (h : CashPinned m) (hns : sym ≠ CashSym) :
    CashPinned (setPrice m sym price).2 := by
  cases hl : m.lookup sym with
  | some p =>
      rw [setPrice_found price hl]
      exact CashPinned_setKey h hns _
  | none =>
      rw [setPrice_not_found _ _ _ hl]
      exact h

theorem SetPrice_preserves_CashPinned {a : Account}
    (h1 : CashPinned a.actual) (h2 : CashPinned a.desired)
    (sym : String) (price : ℚ) :
    CashPinned ((a.SetPrice sym price).2).actual ∧
      CashPinned ((a.SetPrice sym price).2).desired := by
  by_cases hs : sym = "" ∨ sym = CashSym
  · simp only [Account.SetPrice, if_pos hs]
    exact ⟨h1, h2⟩
  · by_cases hp : price ≤ 0
    · simp only [Account.SetPrice, if_neg hs, if_pos hp]
      exact ⟨h1, h2⟩
    · have hns : sym ≠ CashSym := fun hc => hs (Or.inr hc)
      have hact : ((a.SetPrice sym price).2).actual
          = (setPrice a.actual sym price).2 := by
        simp only [Account.SetPrice, if_neg hs, if_neg hp]
        split_ifs <;> rfl
      have hdes : ((a.SetPrice sym price).2).desired
          = (setPrice a.desired sym price).2 := by
        simp only [Account.SetPrice, if_neg hs, if_neg hp]
        split_ifs <;> rfl
      rw [hact, hdes]
      exact ⟨CashPinned_setPrice h1 hns, CashPinned_setPrice h2 hns⟩

/-- Op enumerates the mutating operations of the public Account API. -/
inductive Op where
  | opSetActual (p : List Position)
  | opSetDesired (p : List Position)
  | opSetPrice (sym : String) (price : ℚ)
  | opSetPriceStr (sym : String) (parsed : Option ℚ)

/-- applyOp runs one mutating operation, keeping the resulting state. -/
def applyOp (a : Account) : Op → Account
  | Op.opSetActual p => (a.SetActual p).2
  | Op.opSetDesired p => (a.SetDesired p).2
  | Op.opSetPrice sym price => (a.SetPrice sym price).2
  | Op.opSetPriceStr sym parsed => (a.SetPriceStr sym parsed).2

/-- runOps runs a sequence of mutating operations from a starting state. -/
def runOps (a : Account) (ops : List Op) : Account :=
  ops.foldl applyOp a

theorem applyOp_preserves_CashPinned {a : Account}
    (h1 : CashPinned a.actual) (h2 : CashPinned a.desired) (op : Op) :
    CashPinned (applyOp a op).actual ∧ CashPinned (applyOp a op).desired := by
  cases op with
  | opSetActual p =>
      exact ⟨CashPinned_setPositions p [] 0 true CashPinned_nil, h2⟩
  | opSetDesired p =>
      exact ⟨h1, CashPinned_setPositions p [] 0 false CashPinned_nil⟩
  | opSetPrice sym price =>
      exact SetPrice_preserves_CashPinned h1 h2 sym price
  | opSetPriceStr sym parsed =>
      cases parsed with
      | none => exact ⟨h1, h2⟩
      | some d => exact SetPrice_preserves_CashPinned h1 h2 sym d

/-- C6: in every account state reachable from NewAccount by any sequence of
SetActual, SetDesired, SetPrice and SetPriceStr calls, every position stored
under the cash-sentinel symbol (in either set) has price exactly 1: batch
insertion pins the cash price to 1 and SetPrice rejects the sentinel. -/
theorem cash_price_invariant (margin nonTaxable : Bool) (ops : List Op) :
    CashPinned (runOps (NewAccount margin nonTaxable) ops).actual ∧
      CashPinned (runOps (NewAccount margin nonTaxable) ops).desired := by
  suffices h : ∀ (a : Account), CashPinned a.actual → CashPinned a.desired →
      CashPinned (runOps a ops).actual ∧ CashPinned (runOps a ops).desired by
    exact h _ CashPinned_nil CashPinned_nil
  induction ops with
  | nil =>
      intro a h1 h2
      exact ⟨h1, h2⟩
  | cons op rest ih =>
      intro a h1 h2
      have hstep := applyOp_preserves_CashPinned h1 h2 op
      exact ih _ hstep.1 hstep.2

/-- Heap models the Go runtime heap of `map[string]Position` values: a store
of maps addressed by references (indices). Go maps are reference values, so
aliasing between the account's fields and returned maps is observable; this
model makes that explicit for the snapshot claim about `Actual`/`Desired`. -/
structure Heap where
  store : List PMap

/-- get dereferences a map reference (out-of-range reads give the empty map;
the theorems only use in-range references). -/
def Heap.get (h : Heap) (r : Nat) : PMap :=
  (h.store[r]?).getD []

/-- alloc models `make(map[string]Position)` (with initial contents): a fresh
reference is returned together with the grown heap. -/
def Heap.alloc (h : Heap) (m : PMap) : Nat × Heap :=
  (h.store.length, ⟨h.store ++ [m]⟩)

/-- setRef models in-place mutation of the map a reference points to. -/
def Heap.setRef (h : Heap) (r : Nat) (m : PMap) : Heap :=
  ⟨h.store.set r m⟩

/-- AccountH is the heap-level account: its two sets are references. -/
structure AccountH where
  actualRef : Nat
  desiredRef : Nat

/-- SetActualH embeds `SetActual` against the heap: a fresh map is allocated
(`a.actual = make(...)`), populated by `setPositions`, and the account's
actual field now references it. -/
def AccountH.SetActualH (a : AccountH) (p : List Position) (h : Heap) :
    Option PErr × AccountH × Heap :=
  let r := setPositions [] p true 0
  let al := h.alloc r.2
  (r.1, ⟨al.1, a.desiredRef⟩, al.2)

/-- SetDesiredH embeds `SetDesired` against the heap. -/
def AccountH.SetDesiredH (a : AccountH) (p : List Position) (h : Heap) :
    Option PErr × AccountH × Heap :=
  let r := setPositions [] p false 0
  let al := h.alloc r.2
  (r.1, ⟨a.actualRef, al.1⟩, al.2)

/-- SetPriceH embeds `SetPrice` against the heap: both referenced maps are
mutated in place. -/
def AccountH.SetPriceH (a : AccountH) (sym : String) (price : ℚ) (h : Heap) :
    Option PErr × Heap :=
  if sym = "" ∨ sym = CashSym then (some PErr.BadSym, h)
  else if price ≤ 0 then (some PErr.BadPrice, h)
  else
    let r := setPrice (h.get a.actualRef) sym price
    let r2 := setPrice (h.get a.desiredRef) sym price
    let h' := (h.setRef a.actualRef r.2).setRef a.desiredRef r2.2
    if r.1 = false ∧ r2.1 = false then (some PErr.SymNotFound, h')
    else (none, h')

/-- SetPriceStrH embeds `SetPriceStr` against the heap. -/
def AccountH.SetPriceStrH (a : AccountH) (sym : String) (parsed : Option ℚ)
    (h : Heap) : Option PErr × Heap :=
  match parsed with
  | none => (some PErr.BadPrice, h)
  | some d => a.SetPriceH sym d h

/-- ActualH embeds `Actual()` against the heap: `copyMap` fills a freshly
allocated map, whose reference is returned to the caller. -/
def AccountH.ActualH (a : AccountH) (h : Heap) : Nat × Heap :=
  h.alloc (copyMap (h.get a.actualRef))

/-- DesiredH embeds `Desired()` against the heap. -/
def AccountH.DesiredH (a : AccountH) (h : Heap) : Nat × Heap :=
  h.alloc (copyMap (h.get a.desiredRef))

theorem copyMap_eq (m : PMap) : copyMap m = m := by
  have haux : ∀ (acc : PMap),
      List.foldl (fun m2 kv => m2.insert kv.1 kv.2) acc m = acc ++ m := by
    induction m with
    | nil => intro acc; simp
    | cons kv rest ih =>
        intro acc
        rw [List.foldl_cons, ih]
        simp [PMap.insert]
  simpa using haux []

theorem Heap.get_alloc_self (h : Heap) (m : PMap) :
    (h.alloc m).2.get (h.alloc m).1 = m := by
  simp [Heap.alloc, Heap.get, List.getElem?_concat_length]

theorem Heap.get_alloc_old {r : Nat} (h : Heap) (m : PMap)
    (hr : r < h.store.length) : (h.alloc m).2.get r = h.get r := by
  simp [Heap.alloc, Heap.get, List.getElem?_append_left hr]

theorem Heap.get_setRef_ne {r r' : Nat} (h : Heap) (m : PMap)
    (hne : r' ≠ r) : (h.setRef r' m).get r = h.get r := by
  simp [Heap.setRef, Heap.get, List.getElem?_set_ne hne]

theorem SetActualH_frame (a : AccountH) (p : List Position) (h1 : Heap)
    {r : Nat} (hr : r < h1.store.length) :
    ((a.SetActualH p h1).2.2).get r = h1.get r :=
  Heap.get_alloc_old h1 _ hr

theorem SetDesiredH_frame (a : AccountH) (p : List Position) (h1 : Heap)
    {r : Nat} (hr : r < h1.store.length) :
    ((a.SetDesiredH p h1).2.2).get r = h1.get r :=
  Heap.get_alloc_old h1 _ hr

theorem SetPriceH_frame (a : AccountH) (sym : String) (price : ℚ) (h1 : Heap)
    {r : Nat} (hra : a.actualRef ≠ r) (hrd : a.desiredRef ≠ r) :
    ((a.SetPriceH sym price h1).2).get r = h1.get r := by
  by_cases h1g : sym = "" ∨ sym = CashSym
  · simp only [AccountH.SetPriceH, if_pos h1g]
  · by_cases h2g : price ≤ 0
    · simp only [AccountH.SetPriceH, if_neg h1g, if_pos h2g]
    · simp only [AccountH.SetPriceH, if_neg h1g, if_neg h2g]
      split_ifs <;>
        rw [Heap.get_setRef_ne _ _ hrd, Heap.get_setRef_ne _ _ hra]

theorem SetPriceStrH_frame (a : AccountH) (sym : String) (parsed : Option ℚ)
    (h1 : Heap) {r : Nat} (hra : a.actualRef ≠ r) (hrd : a.desiredRef ≠ r) :
    ((a.SetPriceStrH sym parsed h1).2).get r = h1.get r := by
  cases parsed with
  | none => rfl
  | some d => exact SetPriceH_frame a sym d h1 hra hrd

/-- C9: ActualH (resp. DesiredH) returns a reference to a map whose entries
equal the account's actual (resp. desired) set at the time of the call; the
reference is freshly allocated, so running any further account operation
(SetActualH, SetDesiredH, SetPriceH, SetPriceStrH) leaves the returned map
untouched, and overwriting the returned map leaves both of the account's
sets untouched. -/
theorem snapshot_independence (a : AccountH) (h : Heap)
    (ha : a.actualRef < h.store.length) (hb : a.desiredRef < h.store.length) :
    ((a.ActualH h).2.get (a.ActualH h).1 = h.get a.actualRef) ∧
    ((a.DesiredH h).2.get (a.DesiredH h).1 = h.get a.desiredRef) ∧
    (∀ p, ((a.SetActualH p (a.ActualH h).2).2.2).get (a.ActualH h).1
        = (a.ActualH h).2.get (a.ActualH h).1) ∧
    (∀ p, ((a.SetDesiredH p (a.ActualH h).2).2.2).get (a.ActualH h).1
        = (a.ActualH h).2.get (a.ActualH h).1) ∧
    (∀ sym price,
      ((a.SetPriceH sym price (a.ActualH h).2).2).get (a.ActualH h).1
        = (a.ActualH h).2.get (a.ActualH h).1) ∧
    (∀ sym parsed,
      ((a.SetPriceStrH sym parsed (a.ActualH h).2).2).get (a.ActualH h).1
        = (a.ActualH h).2.get (a.ActualH h).1) ∧
    (∀ m2, ((a.ActualH h).2.setRef (a.ActualH h).1 m2).get a.actualRef
        = (a.ActualH h).2.get a.actualRef ∧
      ((a.ActualH h).2.setRef (a.ActualH h).1 m2).get a.desiredRef
        = (a.ActualH h).2.get a.desiredRef) ∧
    (∀ p, ((a.SetActualH p (a.DesiredH h).2).2.2).get (a.DesiredH h).1
        = (a.DesiredH h).2.get (a.DesiredH h).1) ∧
    (∀ p, ((a.SetDesiredH p (a.DesiredH h).2).2.2).get (a.DesiredH h).1
        = (a.DesiredH h).2.get (a.DesiredH h).1) ∧
    (∀ sym price,
      ((a.SetPriceH sym price (a.DesiredH h).2).2).get (a.DesiredH h).1
        = (a.DesiredH h).2.get (a.DesiredH h).1) ∧
    (∀ sym parsed,
      ((a.SetPriceStrH sym parsed (a.DesiredH h).2).2).get (a.DesiredH h).1
        = (a.DesiredH h).2.get (a.DesiredH h).1) ∧
    (∀ m2, ((a.DesiredH h).2.setRef (a.DesiredH h).1 m2).get a.actualRef
        = (a.DesiredH h).2.get a.actualRef ∧
      ((a.DesiredH h).2.setRef (a.DesiredH h).1 m2).get a.desiredRef
        = (a.DesiredH h).2.get a.desiredRef) := by
  have hfa : (a.ActualH h).1 = h.store.length := rfl
  have hfd : (a.DesiredH h).1 = h.store.length := rfl
  have hlena : (a.ActualH h).2.store.length = h.store.length + 1 := by
    simp [AccountH.ActualH, Heap.alloc]
  have hlend : (a.DesiredH h).2.store.length = h.store.length + 1 := by
    simp [AccountH.DesiredH, Heap.alloc]
  have hra : a.actualRef ≠ h.store.length := Nat.ne_of_lt ha
  have hrd : a.desiredRef ≠ h.store.length := Nat.ne_of_lt hb
  have hina : (a.ActualH h).1 < (a.ActualH h).2.store.length := by
    rw [hfa, hlena]; exact Nat.lt_succ_self _
  have hind : (a.DesiredH h).1 < (a.DesiredH h).2.store.length := by
    rw [hfd, hlend]; exact Nat.lt_succ_self _
  refine ⟨?_, ?_, ?_, ?_, ?_, ?_, ?_, ?_, ?_, ?_, ?_, ?_⟩
  · simp only [AccountH.ActualH]
    rw [Heap.get_alloc_self, copyMap_eq]
  · simp only [AccountH.DesiredH]
    rw [Heap.get_alloc_self, copyMap_eq]
  · intro p; exact SetActualH_frame a p _ hina
  · intro p; exact SetDesiredH_frame a p _ hina
  · intro sym price
    exact SetPriceH_frame a sym price _ hra hrd
  · intro sym parsed
    exact SetPriceStrH_frame a sym parsed _ hra hrd
  · intro m2
    exact ⟨Heap.get_setRef_ne _ _ hra.symm, Heap.get_setRef_ne _ _ hrd.symm⟩
  · intro p; exact SetActualH_frame a p _ hind
  · intro p; exact SetDesiredH_frame a p _ hind
  · intro sym price
    exact SetPriceH_frame a sym price _ hra hrd
  · intro sym parsed
    exact SetPriceStrH_frame a sym parsed _ hra hrd
  · intro m2
    exact ⟨Heap.get_setRef_ne _ _ hra.symm, Heap.get_setRef_ne _ _ hrd.symm⟩

/-- h0 is a concrete two-cell heap holding two empty maps. -/
def h0 : Heap := ⟨[[], []]⟩

/-- a0H is a concrete heap-level account referencing the two cells of h0. -/
def a0H : AccountH := ⟨0, 1⟩

/-- Witness for C9 at a concrete heap: the snapshot equals the live set, a
subsequent SetDesiredH leaves the snapshot untouched, and overwriting the
snapshot leaves the account's actual set untouched. -/
theorem snapshot_independence_witness :
    ((a0H.ActualH h0).2.get (a0H.ActualH h0).1 = h0.get a0H.actualRef) ∧
    (((a0H.SetDesiredH [posA] (a0H.ActualH h0).2).2.2).get (a0H.ActualH h0).1
        = (a0H.ActualH h0).2.get (a0H.ActualH h0).1) ∧
    (((a0H.ActualH h0).2.setRef (a0H.ActualH h0).1 [("AAA", posA)]).get
        a0H.actualRef = (a0H.ActualH h0).2.get a0H.actualRef) := by
  have t := snapshot_independence a0H h0 (by decide) (by decide)
  exact ⟨t.1, t.2.2.2.1 [posA], (t.2.2.2.2.2.2.1 [("AAA", posA)]).1⟩

end Portfolio
